import Mathlib

/-!
Verification of the miniChemistry quantity/solver/balancer engine.

The development shallowly embeds the parts of the code base that the
checked properties talk about:

* `miniChemistry/Computations/Datum.py` — the `Datum` physical-quantity
  wrapper around `pint` (units are modelled as a dimension tag together
  with a positive rational conversion factor to the base unit of that
  dimension; magnitudes are rationals standing for Python floats).
* `miniChemistry/Core/Tools/Equalizer.py` — the reaction balancer
  (the sympy `nullspace` call is an external library; its result is taken
  as an explicit argument constrained by the kernel property it
  guarantees).
* `miniChemistry/Computations/QuantityCalculator.py` — the formula-bank
  solver (sympy expression manipulation is abstracted by an expression
  type `E` together with substitution and solution functions).
* `miniChemistry/Computations/IterativeCalculator.py` — the fixpoint
  solver built on top of the quantity calculator.

In-place mutation in the Python code is modelled by returning the updated
value; raised exceptions are modelled with `Except`.
-/

/-! ## Units (model of the used fragment of `pint`)

A unit is a dimension tag plus the rational factor converting one of this
unit into the base unit of the dimension.  Two units are compatible iff
they share the dimension; converting a magnitude multiplies by the source
factor and divides by the target factor.
-/

structure PintUnit where
  dim : String
  factor : ℚ
deriving DecidableEq, Repr

def PintUnit.isCompatibleWith (u v : PintUnit) : Bool :=
  decide (u.dim = v.dim)

/-- Magnitude conversion between two units (meaningful when compatible). -/
def convertMag (m : ℚ) (u v : PintUnit) : ℚ :=
  m * u.factor / v.factor

structure PintQuantity where
  magnitude : ℚ
  units : PintUnit
deriving DecidableEq, Repr

/-- `pint.Quantity.to_base_units`. -/
def PintQuantity.toBaseUnits (q : PintQuantity) : PintQuantity :=
  ⟨q.magnitude * q.units.factor, ⟨q.units.dim, 1⟩⟩

/-! ## `Datum` (miniChemistry/Computations/Datum.py) -/

inductive DatumError where
  | negativesNotAllowed
  | incompatibleUnits
  | wrongZeroToleranceExponentValue
deriving DecidableEq, Repr

/-- The `Datum` class.  `varName` is `_variable` (`variable` is reserved in
Lean), `magnitude` is `_value`, `zte` is `_ZERO_TOLERANCE_EXPONENT`.
`Datum.__init__` always sets `_ALLOW_NEGATIVES = False` and
`_ZERO_TOLERANCE_EXPONENT = 3`, so freshly constructed data carry
`false` and `3` in those fields. -/
structure Datum where
  varName : String
  magnitude : ℚ
  units : PintUnit
  allowNegatives : Bool
  zte : Int
deriving DecidableEq, Repr

def Datum.quantity (d : Datum) : PintQuantity :=
  ⟨d.magnitude, d.units⟩

/-- `Datum._negative_value_test` with its default `raise_exception=True`. -/
def negativeValueTest (d : Datum) (value : ℚ) : Except DatumError Unit :=
  if value < 0 ∧ d.allowNegatives = false then .error .negativesNotAllowed
  else .ok ()

/-- `Datum.convertable`. -/
def Datum.convertable (d : Datum) (u : PintUnit) : Bool :=
  d.units.isCompatibleWith u

/-- `Datum.convert`: builds `Datum(self.variable, m, u)` via `__init__`,
hence the flags are reset to their constructor values. -/
def Datum.convert (d : Datum) (u : PintUnit) : Datum :=
  ⟨d.varName, convertMag d.magnitude d.units u, u, false, 3⟩

/-- `Datum.rewrite`: checks convertability, converts the *new* value from
the *new* units back into the current units and stores only the magnitude;
the `_units` field is left untouched by the source. -/
def Datum.rewrite (d : Datum) (value : ℚ) (u : PintUnit) : Except DatumError Datum :=
  if d.convertable u then
    let newDatum : Datum := ⟨d.varName, value, u, false, 3⟩
    let converted := newDatum.convert d.units
    .ok { d with magnitude := converted.magnitude }
  else .error .incompatibleUnits

/-- `Datum.scale`: multiplies the magnitude and hands the result to
`rewrite` with the unchanged units.  No sign validation happens on this
path. -/
def Datum.scale (d : Datum) (factor : ℚ) : Except DatumError Datum :=
  d.rewrite (d.magnitude * factor) d.units

/-- The numeric branch of `Datum.__mul__` (multiplication by a number):
builds the new quantity, runs `_negative_value_test`, and returns the
base-unit quantity. -/
def Datum.mulScalar (d : Datum) (other : ℚ) : Except DatumError PintQuantity :=
  let newValue := d.magnitude * other
  let newQuantity : PintQuantity := ⟨newValue, d.units⟩
  match negativeValueTest d newQuantity.magnitude with
  | .error e => .error e
  | .ok _ => .ok newQuantity.toBaseUnits

/-- `Datum.__add__`: requires convertible units, adds the quantities
(`pint` converts the right operand into the left operand's units), runs
`_negative_value_test` on the result. -/
def Datum.addDatum (d other : Datum) : Except DatumError PintQuantity :=
  if other.convertable d.units then
    let result : PintQuantity :=
      ⟨d.magnitude + convertMag other.magnitude other.units d.units, d.units⟩
    match negativeValueTest d result.magnitude with
    | .error e => .error e
    | .ok _ => .ok result
  else .error .incompatibleUnits

/-- `Datum.__sub__`: requires convertible units, subtracts the quantities
(`pint` converts the right operand into the left operand's units), runs
`_negative_value_test` on the result. -/
def Datum.subDatum (d other : Datum) : Except DatumError PintQuantity :=
  if other.convertable d.units then
    let result : PintQuantity :=
      ⟨d.magnitude - convertMag other.magnitude other.units d.units, d.units⟩
    match negativeValueTest d result.magnitude with
    | .error e => .error e
    | .ok _ => .ok result
  else .error .incompatibleUnits

/-- The numeric branch of `Datum.__truediv__` (division by a number):
builds the new quantity, runs `_negative_value_test`, and returns the
base-unit quantity. -/
def Datum.divScalar (d : Datum) (other : ℚ) : Except DatumError PintQuantity :=
  let newValue := d.magnitude / other
  let newQuantity : PintQuantity := ⟨newValue, d.units⟩
  match negativeValueTest d newQuantity.magnitude with
  | .error e => .error e
  | .ok _ => .ok newQuantity.toBaseUnits

/-- `Datum.from_quantity`: runs `_negative_value_test` on the quantity's
magnitude, then builds a fresh `Datum` via the constructor. -/
def Datum.fromQuantity (d : Datum) (name : String) (q : PintQuantity) :
    Except DatumError Datum :=
  match negativeValueTest d q.magnitude with
  | .error e => .error e
  | .ok _ => .ok ⟨name, q.magnitude, q.units, false, 3⟩

/-- `Datum._ZTE_test`: the exponent must be an integer strictly between 0
and 100. -/
def Datum.zteTest (d : Datum) : Bool :=
  decide (0 < d.zte ∧ d.zte < 100)

/-- `math.isclose(a, b, rel_tol=r)` with the default `abs_tol = 0`. -/
def isclose (a b relTol : ℚ) : Bool :=
  decide (|a - b| ≤ max (relTol * max |a| |b|) 0)

/-- The value of Python's `eval(f'10E{zte}')`: the float literal `10Ek`
denotes `10 * 10^k`. -/
def floatTenE (z : Int) : ℚ :=
  10 * (10 : ℚ) ^ z

/-- `Datum.__eq__`: guard on `_ZTE_test`, then conjunction of name
equality, `isclose` on the magnitudes with `rel_tol = eval(f'10E{zte}')`,
and equality of the base-unit quantities. -/
def datumEq (d1 d2 : Datum) : Except DatumError Bool :=
  if d1.zteTest = false then .error .wrongZeroToleranceExponentValue
  else .ok (decide (d1.varName = d2.varName)
      && isclose d1.magnitude d2.magnitude (floatTenE d1.zte)
      && decide (d1.quantity.toBaseUnits = d2.quantity.toBaseUnits))

/-- Modelled from the spec's words, for comparison with `datumEq`:
"magnitude equality using a relative tolerance of
`10^(zero_tolerance_exponent)` (tolerance exponent must lie in (0,100))",
with the same name and base-unit conditions. -/
def datumEqSpec (d1 d2 : Datum) : Except DatumError Bool :=
  if d1.zteTest = false then .error .wrongZeroToleranceExponentValue
  else .ok (decide (d1.varName = d2.varName)
      && isclose d1.magnitude d2.magnitude ((10 : ℚ) ^ d1.zte)
      && decide (d1.quantity.toBaseUnits = d2.quantity.toBaseUnits))

/-! Concrete data used by counterexamples and witnesses. -/

def gramUnit : PintUnit := ⟨"mass", 1⟩

def kilogramUnit : PintUnit := ⟨"mass", 1000⟩

def moleUnit : PintUnit := ⟨"amount", 1⟩

def datumC6 : Datum := ⟨"mps", 1, kilogramUnit, false, 3⟩

def datumC8 : Datum := ⟨"mps", 1, kilogramUnit, false, 3⟩

/-- A gram datum worth `-2 kg`, for the addition witness. -/
def datumNegG : Datum := ⟨"mps", -2000, gramUnit, false, 3⟩

/-- A gram datum worth `2 kg`, for the subtraction witness. -/
def datumBigG : Datum := ⟨"mps", 2000, gramUnit, false, 3⟩

/-! ## Equalizer (miniChemistry/Core/Tools/Equalizer.py)

A substance (`Simple`/`Molecule`) enters the balancer only through its
composition (element symbol → atom count) and its equality relation
(`Particle.__eq__`: equal composition and charge), modelled structurally.
The sympy `nullspace` call is external; `_get_coefficients` receives its
result as the `solutions` argument, and theorems constrain it by the
kernel property sympy guarantees (`inNullspace`).
-/

structure Substance where
  comp : List (String × Nat)
  charge : Int
deriving DecidableEq, Repr

/-- `substance.composition.get(element)` with `0` for an absent element,
as used in `Equalizer._create_matrix`. -/
def Substance.count (s : Substance) (e : String) : Nat :=
  match s.comp.lookup e with
  | some n => n
  | none => 0

inductive EqualizerError where
  | cannotEquateReaction
deriving DecidableEq, Repr

/-- One entry of `Equalizer._create_matrix`:
`multiple = -1 if substance in self.products else 1`, times the element's
index in the substance. -/
def matrixEntry (products : List Substance) (e : String) (s : Substance) : Int :=
  (if s ∈ products then -1 else 1) * (s.count e : Int)

/-- `Equalizer._create_matrix`: one row per element, one column per
substance (reagents then products). -/
def createMatrix (elements : List String) (reagents products : List Substance) :
    List (List Int) :=
  elements.map (fun e => (reagents ++ products).map (matrixEntry products e))

/-- Dot product of an integer matrix row with a rational vector. -/
def dotRow (row : List Int) (v : List ℚ) : ℚ :=
  ((row.zip v).map (fun p => (p.1 : ℚ) * p.2)).sum

/-- The contract of `sympy.Matrix.nullspace()`: every returned vector is in
the kernel of the matrix. -/
def inNullspace (m : List (List Int)) (v : List ℚ) : Prop :=
  ∀ row ∈ m, dotRow row v = 0

/-- `math.lcm(*denominators)` over all denominators of the vector
(`Equalizer._make_integers`). -/
def lcmDen (v : List ℚ) : Nat :=
  v.foldl (fun acc x => Nat.lcm acc x.den) 1

/-- `Equalizer._make_integers`: multiply every entry by the least common
multiple of the denominators. -/
def makeIntegers (v : List ℚ) : List ℚ :=
  v.map (fun x => (lcmDen v : ℚ) * x)

/-- `Equalizer._get_coefficients`: raise `CannotEquateReaction` unless the
nullspace basis has exactly one vector; otherwise scale it to integers and
pair it with the substances (`zip(answer.tolist(), self._substance_order)`
feeding the result dict). -/
def getCoefficients (solutions : List (List ℚ)) (substances : List Substance) :
    Except EqualizerError (List (Substance × ℚ)) :=
  match solutions with
  | [solution] => .ok (substances.zip (makeIntegers solution))
  | _ => .error .cannotEquateReaction

/-- The dict built from the zipped pairs: `answer_dict.update({substance:
coefficient})` lets a later occurrence of an equal substance overwrite an
earlier one. -/
def coeffMap (pairs : List (Substance × ℚ)) (s : Substance) : ℚ :=
  pairs.foldl (fun acc p => if p.1 = s then p.2 else acc) 0

/-- Per-element weighted sum of one side of the reaction under a
coefficient assignment. -/
def sideSum (side : List Substance) (c : Substance → ℚ) (e : String) : ℚ :=
  (side.map (fun s => c s * (s.count e : ℚ))).sum

/-! Concrete substances for the balancing counterexample and witness. -/

def subH2 : Substance := ⟨[("H", 2)], 0⟩

def subO2 : Substance := ⟨[("O", 2)], 0⟩

def subH2O : Substance := ⟨[("H", 2), ("O", 1)], 0⟩

/-- The sympy nullspace vector for reagents `[H2, H2]`, products `[O2]`. -/
def vecDup : List ℚ := [-1, 1, 0]

/-- The sympy nullspace vector for reagents `[H2, O2]`, products `[H2O]`. -/
def vecWater : List ℚ := [1, 1/2, 1]

/-- The coefficient pairs the Equalizer builds from `vecDup`. -/
def pairsDup : List (Substance × ℚ) := [(subH2, -1), (subH2, 1), (subO2, 0)]

/-- The coefficient pairs the Equalizer builds from `vecWater`
(the `{H2: 2, O2: 1, H2O: 2}` of the module's doc example). -/
def pairsWater : List (Substance × ℚ) := [(subH2, 2), (subO2, 1), (subH2O, 2)]

/-! ## QuantityCalculator (miniChemistry/Computations/QuantityCalculator.py)

The sympy expression machinery is external.  A formula is an opaque value
of a type `E`; `subsFn e v m` models `e.subs(v, m)` and `solveFn e v`
models `sp.solve(e, sp.Symbol(v))`, where each returned solution carries
its `is_number` flag and (for numeric solutions) its float value.
-/

/-- One sympy solution: `is_number` plus the numeric value. -/
structure SymSol where
  isNumber : Bool
  val : ℚ
deriving DecidableEq, Repr

/-- The mutable state of a `QuantityCalculator`: `_formulas_list` (the
read-only source bank), `_tfl` (the working copy) and `_values`. -/
structure QCState (E : Type) where
  formulasList : List E
  tfl : List E
  values : List Datum
deriving DecidableEq, Repr

/-- The effect of `QuantityCalculator._push` on one formula: substitute
every known value's base-unit magnitude. -/
def pushExpr {E : Type} (subsFn : E → String → ℚ → E) (values : List Datum) (e : E) : E :=
  values.foldl (fun acc d => subsFn acc d.varName d.quantity.toBaseUnits.magnitude) e

/-- `QuantityCalculator._push`: substitute all values into all working
formulas. -/
def pushAll {E : Type} (subsFn : E → String → ℚ → E) (values : List Datum)
    (tfl : List E) : List E :=
  tfl.map (pushExpr subsFn values)

/-- The success test of `_solve_from_strings`:
`len(solutions) > 0 and all(answer.is_number for answer in solutions)`. -/
def numericSuccess {E : Type} (solveFn : E → String → List SymSol) (solveFor : String)
    (e : E) : Bool :=
  decide (solveFn e solveFor ≠ []) && (solveFn e solveFor).all (fun s => s.isNumber)

/-- The `for eq in self._tfl:` loop of `_solve_from_strings`: the
solutions of the first formula passing the numeric test, if any. -/
def findNumeric {E : Type} (solveFn : E → String → List SymSol) (solveFor : String) :
    List E → Option (List SymSol)
  | [] => none
  | e :: rest =>
    if numericSuccess solveFn solveFor e then some (solveFn e solveFor)
    else findNumeric solveFn solveFor rest

/-- `QuantityCalculator._solve_from_strings`: push, scan the working
formulas in order, and on success build one Datum per solution in the
variable's default units and reset the working copy to the source bank.
With no success the method returns `None` (and the working copy keeps the
substituted formulas). -/
def solveFromStrings {E : Type} (solveFn : E → String → List SymSol)
    (subsFn : E → String → ℚ → E) (defaultUnits : String → PintUnit)
    (st : QCState E) (solveFor : String) : Option (List Datum) × QCState E :=
  let tfl1 := pushAll subsFn st.values st.tfl
  match findNumeric solveFn solveFor tfl1 with
  | some sols =>
    (some (sols.map (fun s => ⟨solveFor, s.val, defaultUnits solveFor, false, 3⟩)),
     { st with tfl := st.formulasList })
  | none => (none, { st with tfl := tfl1 })

inductive QCError where
  | solutionNotFound
deriving DecidableEq, Repr

/-- The per-solution post-processing of `QuantityCalculator.solve` with
`answer_units='default'`: `solution.rewrite(round(magnitude, round_to),
solution.units)` when `round_to` is given, else
`solution.rewrite(magnitude, solution.units)`; both are the ok-branch of
`rewrite` at the solution's own units.  `pyRound` abstracts Python's
float `round`. -/
def postProcess (pyRound : ℚ → Nat → ℚ) (roundTo : Option Nat) (d : Datum) : Datum :=
  match roundTo with
  | some n => { d with magnitude := convertMag (pyRound d.magnitude n) d.units d.units }
  | none => { d with magnitude := convertMag d.magnitude d.units d.units }

/-- `QuantityCalculator.solve` with `answer_units='default'`: raise
`SolutionNotFound` when `_solve_from_strings` produced nothing, else
post-process each solution. -/
def qcSolve {E : Type} (solveFn : E → String → List SymSol)
    (subsFn : E → String → ℚ → E) (defaultUnits : String → PintUnit)
    (pyRound : ℚ → Nat → ℚ) (roundTo : Option Nat)
    (st : QCState E) (solveFor : String) : Except QCError (List Datum) × QCState E :=
  match solveFromStrings solveFn subsFn defaultUnits st solveFor with
  | (none, st1) => (.error .solutionNotFound, st1)
  | (some sols, st1) => (.ok (sols.map (postProcess pyRound roundTo)), st1)

/-! ## IterativeCalculator (miniChemistry/Computations/IterativeCalculator.py) -/

/-- `QuantityCalculator.has_value` (as used through
`IterativeCalculator`). -/
def hasValue (values : List Datum) (name : String) : Bool :=
  values.any (fun d => d.varName == name)

/-- `IterativeCalculator._compute_all_possible_vars`: for each declared
symbol without a value, try `self.calculator.solve(var, round_to=None)`;
`calcSolve` abstracts that call inside the bare `try/except` (`none`
models a raised exception as well as the skipped multi-solution
`interres.append(*res)` case).  A successful solve yields a Datum named
after the solved variable. -/
def computeAllPossibleVars (calcSolve : List Datum → String → Option (ℚ × PintUnit))
    (symbols : List String) (values : List Datum) : List Datum :=
  symbols.filterMap (fun v =>
    if hasValue values v then none
    else (calcSolve values v).map (fun r => (⟨v, r.1, r.2, false, 3⟩ : Datum)))

/-- `IterativeCalculator._iterate`, driven to exhaustion by the
`for data in self._iterate():` loop of `solve` (with
`stop_at_target=False`), with an explicit round budget: each round
computes all possible variables, writes them, and the loop ends when a
round produces nothing.  The boolean reports whether the fixpoint was
reached within `fuel` rounds. -/
def iterate (calcSolve : List Datum → String → Option (ℚ × PintUnit))
    (symbols : List String) : Nat → List Datum → List Datum × Bool
  | 0, values => (values, false)
  | fuel + 1, values =>
    let interres := computeAllPossibleVars calcSolve symbols values
    if interres.isEmpty then (values, true)
    else iterate calcSolve symbols fuel (values ++ interres)

/-- The number of declared symbols that currently have no value. -/
def unknownCount (symbols : List String) (values : List Datum) : Nat :=
  (symbols.filter (fun v => !hasValue values v)).length

inductive ICError where
  | solutionNotFound
  | valueError
deriving DecidableEq, Repr

/-- `Datum._get_decimals`: raises `ValueError` when the magnitude is
exactly zero; for a nonzero magnitude the number of digits after the
decimal point of `str(float(value))` is abstracted by `decimalsOf`. -/
def getDecimals (decimalsOf : ℚ → Nat) (value : ℚ) : Except ICError Nat :=
  if value = 0 then .error .valueError else .ok (decimalsOf value)

/-- `IterativeCalculator.solve` with `stop_at_target=False`: run the
rounds to the fixpoint, fail with `SolutionNotFound` if the target
variable is still unknown, read it back converted to the target's units
(`read_value(self.target, units=self.target.units)`), and round to
`self.target.num_decimals` — the decimal count of the *stored target's*
magnitude, which raises `ValueError` when that magnitude is exactly
zero.  The answer is a fresh `Datum`. -/
def icSolve (calcSolve : List Datum → String → Option (ℚ × PintUnit))
    (symbols : List String) (decimalsOf : ℚ → Nat) (pyRound : ℚ → Nat → ℚ)
    (fuel : Nat) (target : Datum) (values : List Datum) : Except ICError Datum :=
  let final := (iterate calcSolve symbols fuel values).1
  match final.find? (fun d => d.varName == target.varName) with
  | none => .error .solutionNotFound
  | some d0 =>
    let result := d0.convert target.units
    match getDecimals decimalsOf target.magnitude with
    | .error e => .error e
    | .ok n => .ok ⟨result.varName, pyRound result.magnitude n, result.units, false, 3⟩

/-- An assumption bundle (`Assumption` class): `presetVars` is
`_variables` (filled by `to_set`), `computeVars` is `_to_compute`,
`assumeVars` is `_assume`. -/
structure Assumption where
  symbol : String
  fullName : String
  presetVars : List Datum
  computeVars : List Datum
  assumeVars : List Datum
deriving DecidableEq, Repr

inductive AssumeError where
  | indexError
deriving DecidableEq, Repr

/-- The selection loop of `IterativeCalculator.assume`:
`for i, name in enumerate(names): if name in assumption_names:
self._apply_assumption(read_assumptions[i])`.  The bundle applied at a
match is `read_assumptions[i]` where `i` is the position of the *name in
the argument tuple*; an out-of-range `i` is Python's `IndexError`.  The
result lists the bundles applied, in order. -/
def assumeSelectAux (bundles : List Assumption) :
    List String → Nat → Except AssumeError (List Assumption)
  | [], _ => .ok []
  | n :: rest, i =>
    if n ∈ bundles.map (fun a => a.symbol) then
      match bundles.get? i with
      | none => .error .indexError
      | some a =>
        match assumeSelectAux bundles rest (i + 1) with
        | .error e => .error e
        | .ok l => .ok (a :: l)
    else assumeSelectAux bundles rest (i + 1)

/-- `IterativeCalculator.assume` reduced to its bundle selection. -/
def assumeSelect (bundles : List Assumption) (names : List String) :
    Except AssumeError (List Assumption) :=
  assumeSelectAux bundles names 0

/-! Concrete instantiations for the calculator claims. -/

/-- A bundle bank whose first symbol differs from the second. -/
def bundleNTP : Assumption := ⟨"NTP", "normal temperature and pressure", [], [], []⟩

def bundleSTP : Assumption := ⟨"STP", "standard temperature and pressure", [], [], []⟩

/-- An expression world for the reset counterexample: formulas are `Nat`,
substitution increments (so a substituted formula differs from its
source), and no formula ever has a numeric solution. -/
def subsFnC9 : Nat → String → ℚ → Nat := fun e _ _ => e + 1

def solveFnC9 : Nat → String → List SymSol := fun _ _ => []

def unitsOfC9 : String → PintUnit := fun _ => gramUnit

def stateC9 : QCState Nat := ⟨[0], [0], [⟨"x", 1, gramUnit, false, 3⟩]⟩

/-- An expression world for the first-match witness: the bank is
`[1, 2, 3]`, substitution is the identity, and only formula `2` yields a
(numeric) solution. -/
def subsFnC3 : Nat → String → ℚ → Nat := fun e _ _ => e

def solveFnC3 : Nat → String → List SymSol := fun e _ => if e = 2 then [⟨true, 5⟩] else []

def stateC3 : QCState Nat := ⟨[1, 2, 3], [1, 2, 3], []⟩

/-- A one-variable world for the zero-target claim: solving `n` always
succeeds with the value 5. -/
def calcSolveC10 : List Datum → String → Option (ℚ × PintUnit) :=
  fun _ v => if v = "n" then some (5, gramUnit) else none

def targetC10 : Datum := ⟨"n", 0, gramUnit, false, 3⟩

instance exceptDecidableEq {ε α : Type} [DecidableEq ε] [DecidableEq α] :
    DecidableEq (Except ε α) := fun a b =>
  match a, b with
  | .error e1, .error e2 =>
    if h : e1 = e2 then .isTrue (by rw [h]) else .isFalse (by intro hc; cases hc; exact h rfl)
  | .error _, .ok _ => .isFalse (by intro hc; cases hc)
  | .ok _, .error _ => .isFalse (by intro hc; cases hc)
  | .ok a1, .ok a2 =>
    if h : a1 = a2 then .isTrue (by rw [h]) else .isFalse (by intro hc; cases hc; exact h rfl)

/-! ## Theorems -/

/-- Helper: the distance of two rationals is at most twice the larger
absolute value. -/
theorem abs_sub_le_two_mul_max (a b : ℚ) : |a - b| ≤ 2 * max |a| |b| := by
  calc |a - b| = |a + -b| := by rw [sub_eq_add_neg]
    _ ≤ |a| + |-b| := abs_add a (-b)
    _ = |a| + |b| := by rw [abs_neg]
    _ ≤ max |a| |b| + max |a| |b| := add_le_add (le_max_left _ _) (le_max_right _ _)
    _ = 2 * max |a| |b| := (two_mul _).symm

/-- Helper: `math.isclose` with `abs_tol = 0` is vacuously true as soon as
the relative tolerance reaches 2. -/
theorem isclose_of_two_le (a b r : ℚ) (hr : 2 ≤ r) : isclose a b r = true := by
  unfold isclose
  apply decide_eq_true
  have h0 : (0:ℚ) ≤ max |a| |b| := le_trans (abs_nonneg a) (le_max_left _ _)
  have h1 : |a - b| ≤ 2 * max |a| |b| := abs_sub_le_two_mul_max a b
  have h2 : 2 * max |a| |b| ≤ r * max |a| |b| := mul_le_mul_of_nonneg_right hr h0
  exact le_max_of_le_left (le_trans h1 h2)

/-- Helper: `10^z ≥ 2` for positive integer exponents. -/
theorem two_le_ten_zpow {z : Int} (hz : 1 ≤ z) : (2:ℚ) ≤ (10:ℚ) ^ z := by
  have hzn : z = (z.toNat : Int) := (Int.toNat_of_nonneg (le_trans (by norm_num) hz)).symm
  rw [hzn, zpow_natCast]
  have h1 : 1 ≤ z.toNat := by omega
  calc (2:ℚ) ≤ 10 := by norm_num
    _ = 10 ^ 1 := (pow_one _).symm
    _ ≤ 10 ^ z.toNat := pow_le_pow_right₀ (by norm_num) h1

/-- Helper: the tolerance the code actually uses is also at least 2 for
positive integer exponents. -/
theorem two_le_floatTenE {z : Int} (hz : 1 ≤ z) : (2:ℚ) ≤ floatTenE z := by
  unfold floatTenE
  have h1 : (2:ℚ) ≤ (10:ℚ) ^ z := two_le_ten_zpow hz
  have hp : (0:ℚ) ≤ (10:ℚ) ^ z := le_trans (by norm_num) h1
  calc (2:ℚ) ≤ (10:ℚ) ^ z := h1
    _ ≤ 10 * (10:ℚ) ^ z := le_mul_of_one_le_left hp (by norm_num)

/-- Claim C6 (amended): with `allow_negatives` false, the sign-validated
`Datum` operations — `__add__`, `__sub__`, the numeric branches of
`__mul__` and `__truediv__`, and the `from_quantity` constructor — fail
with `NegativesNotAllowed` whenever the resulting magnitude is negative;
`scale` (delegating to `rewrite`) performs no sign validation: it always
succeeds on the datum's own units and stores the (possibly negative)
product as the new magnitude. -/
theorem scale_skips_sign_validation (d : Datum) (hallow : d.allowNegatives = false) :
    (∀ c : ℚ, d.magnitude * c < 0 → d.mulScalar c = .error .negativesNotAllowed) ∧
    (∀ c : ℚ, d.magnitude / c < 0 → d.divScalar c = .error .negativesNotAllowed) ∧
    (∀ other : Datum, other.convertable d.units = true →
      d.magnitude + convertMag other.magnitude other.units d.units < 0 →
      d.addDatum other = .error .negativesNotAllowed) ∧
    (∀ other : Datum, other.convertable d.units = true →
      d.magnitude - convertMag other.magnitude other.units d.units < 0 →
      d.subDatum other = .error .negativesNotAllowed) ∧
    (∀ (name : String) (q : PintQuantity), q.magnitude < 0 →
      d.fromQuantity name q = .error .negativesNotAllowed) ∧
    (d.units.factor ≠ 0 → ∀ c : ℚ,
      d.scale c = .ok { d with magnitude := d.magnitude * c }) := by
  refine ⟨?_, ?_, ?_, ?_, ?_, ?_⟩
  · intro c hneg
    have hNVT : negativeValueTest d (d.magnitude * c) = .error .negativesNotAllowed := by
      unfold negativeValueTest
      rw [if_pos ⟨hneg, hallow⟩]
    simp only [Datum.mulScalar, hNVT]
  · intro c hneg
    have hNVT : negativeValueTest d (d.magnitude / c) = .error .negativesNotAllowed := by
      unfold negativeValueTest
      rw [if_pos ⟨hneg, hallow⟩]
    simp only [Datum.divScalar, hNVT]
  · intro other hconv hneg
    have hNVT : negativeValueTest d
        (d.magnitude + convertMag other.magnitude other.units d.units)
        = .error .negativesNotAllowed := by
      unfold negativeValueTest
      rw [if_pos ⟨hneg, hallow⟩]
    simp only [Datum.addDatum, hconv, if_true, hNVT]
  · intro other hconv hneg
    have hNVT : negativeValueTest d
        (d.magnitude - convertMag other.magnitude other.units d.units)
        = .error .negativesNotAllowed := by
      unfold negativeValueTest
      rw [if_pos ⟨hneg, hallow⟩]
    simp only [Datum.subDatum, hconv, if_true, hNVT]
  · intro name q hneg
    have hNVT : negativeValueTest d q.magnitude = .error .negativesNotAllowed := by
      unfold negativeValueTest
      rw [if_pos ⟨hneg, hallow⟩]
    simp only [Datum.fromQuantity, hNVT]
  · intro hf c
    have hconv : d.convertable d.units = true := by
      unfold Datum.convertable PintUnit.isCompatibleWith
      exact decide_eq_true rfl
    simp only [Datum.scale, Datum.rewrite, hconv, if_true, Datum.convert, convertMag]
    rw [mul_div_cancel_right₀ _ hf]

theorem scale_skips_sign_validation_witness :
    datumC6.allowNegatives = false ∧
    (datumC6.magnitude * (-2) < 0 ∧
      datumC6.mulScalar (-2) = .error .negativesNotAllowed) ∧
    (datumC6.magnitude / (-2) < 0 ∧
      datumC6.divScalar (-2) = .error .negativesNotAllowed) ∧
    (datumNegG.convertable datumC6.units = true ∧
      datumC6.magnitude + convertMag datumNegG.magnitude datumNegG.units datumC6.units < 0 ∧
      datumC6.addDatum datumNegG = .error .negativesNotAllowed) ∧
    (datumBigG.convertable datumC6.units = true ∧
      datumC6.magnitude - convertMag datumBigG.magnitude datumBigG.units datumC6.units < 0 ∧
      datumC6.subDatum datumBigG = .error .negativesNotAllowed) ∧
    ((⟨-1, gramUnit⟩ : PintQuantity).magnitude < 0 ∧
      datumC6.fromQuantity "x" ⟨-1, gramUnit⟩ = .error .negativesNotAllowed) ∧
    (datumC6.units.factor ≠ 0 ∧
      datumC6.scale (-2) = .ok { datumC6 with magnitude := datumC6.magnitude * (-2) }) := by
  have T := scale_skips_sign_validation datumC6 rfl
  have hmul : datumC6.magnitude * (-2) < 0 := by norm_num [datumC6]
  have hdiv : datumC6.magnitude / (-2) < 0 := by norm_num [datumC6]
  have haddc : datumNegG.convertable datumC6.units = true := by decide
  have hadd : datumC6.magnitude
      + convertMag datumNegG.magnitude datumNegG.units datumC6.units < 0 := by
    norm_num [datumC6, datumNegG, gramUnit, kilogramUnit, convertMag]
  have hsubc : datumBigG.convertable datumC6.units = true := by decide
  have hsub : datumC6.magnitude
      - convertMag datumBigG.magnitude datumBigG.units datumC6.units < 0 := by
    norm_num [datumC6, datumBigG, gramUnit, kilogramUnit, convertMag]
  have hq : (⟨-1, gramUnit⟩ : PintQuantity).magnitude < 0 := by norm_num
  have hf : datumC6.units.factor ≠ 0 := by norm_num [datumC6, kilogramUnit]
  exact ⟨rfl, ⟨hmul, T.1 (-2) hmul⟩, ⟨hdiv, T.2.1 (-2) hdiv⟩,
    ⟨haddc, hadd, T.2.2.1 datumNegG haddc hadd⟩,
    ⟨hsubc, hsub, T.2.2.2.1 datumBigG hsubc hsub⟩,
    ⟨hq, T.2.2.2.2.1 "x" ⟨-1, gramUnit⟩ hq⟩,
    ⟨hf, T.2.2.2.2.2 hf (-2)⟩⟩

/-- Claim C6, counterexample to the claim as stated: `datumC6` has
`allow_negatives = false` and positive magnitude, yet `scale (-2)` does
not raise `NegativesNotAllowed`; it succeeds and stores the negative
magnitude. -/
theorem scale_negative_factor_counterexample :
    datumC6.allowNegatives = false ∧ 0 < datumC6.magnitude ∧
    datumC6.scale (-2) = .ok ⟨"mps", -2, kilogramUnit, false, 3⟩ := by
  refine ⟨rfl, by norm_num [datumC6], ?_⟩
  norm_num [datumC6, kilogramUnit, Datum.scale, Datum.rewrite, Datum.convertable,
    PintUnit.isCompatibleWith, Datum.convert, convertMag]

/-- Claim C7: `Datum.__eq__` behaves exactly as the spec describes it —
comparison fails unless the zero-tolerance exponent is an integer in
(0, 100), and otherwise returns the conjunction of name equality,
magnitude closeness under a relative tolerance of
`10^(zero_tolerance_exponent)`, and equality of the base-unit quantities.
(The code evaluates the tolerance as the float literal `10E{zte}`, i.e.
`10^(zte+1)`; both tolerances exceed 2 for every admissible exponent, so
the closeness test is extensionally identical.) -/
theorem datumEq_matches_spec_characterization (d1 d2 : Datum) :
    datumEq d1 d2 = datumEqSpec d1 d2 := by
  unfold datumEq datumEqSpec
  by_cases h : d1.zteTest = false
  · rw [if_pos h, if_pos h]
  · rw [if_neg h, if_neg h]
    have hz : 0 < d1.zte ∧ d1.zte < 100 := by
      have hb : d1.zteTest = true := by
        cases hzt : d1.zteTest with
        | false => exact absurd hzt h
        | true => rfl
      exact of_decide_eq_true hb
    have h1 : (1:Int) ≤ d1.zte := hz.1
    rw [isclose_of_two_le _ _ _ (two_le_floatTenE h1),
      isclose_of_two_le _ _ _ (two_le_ten_zpow h1)]

/-- Claim C8 (amended): for a unit `u` convertible to the datum's current
unit, `rewrite(v, u)` stores, as the new magnitude, `v` *converted from
`u` into the current unit*, and leaves the unit field unchanged; for an
incompatible `u` it fails with `IncompatibleUnits` and the datum is
unchanged. -/
theorem rewrite_value_converted_units_kept (d : Datum) (value : ℚ) (u : PintUnit) :
    (d.units.dim = u.dim →
      d.rewrite value u = .ok { d with magnitude := value * u.factor / d.units.factor }) ∧
    (d.units.dim ≠ u.dim → d.rewrite value u = .error .incompatibleUnits) := by
  constructor
  · intro h
    have hconv : d.convertable u = true := by
      unfold Datum.convertable PintUnit.isCompatibleWith
      exact decide_eq_true h
    simp only [Datum.rewrite, hconv, if_true, Datum.convert, convertMag]
  · intro h
    have hconv : d.convertable u = false := by
      unfold Datum.convertable PintUnit.isCompatibleWith
      exact decide_eq_false h
    simp only [Datum.rewrite, hconv, Bool.false_eq_true, if_false]

theorem rewrite_value_converted_units_kept_witness :
    (datumC8.units.dim = gramUnit.dim ∧
      datumC8.rewrite 1 gramUnit =
        .ok { datumC8 with magnitude := 1 * gramUnit.factor / datumC8.units.factor }) ∧
    (datumC8.units.dim ≠ moleUnit.dim ∧
      datumC8.rewrite 1 moleUnit = .error .incompatibleUnits) :=
  ⟨⟨rfl, (rewrite_value_converted_units_kept datumC8 1 gramUnit).1 rfl⟩,
   ⟨by decide, (rewrite_value_converted_units_kept datumC8 1 moleUnit).2 (by decide)⟩⟩

/-- Claim C8, counterexample to the claim as stated: rewriting the
kilogram-datum `datumC8` with magnitude `1` and unit gram yields a datum
whose magnitude is `1/1000` (not `1`) and whose unit is still kilogram
(not gram). -/
theorem rewrite_counterexample :
    datumC8.rewrite 1 gramUnit = .ok ⟨"mps", 1/1000, kilogramUnit, false, 3⟩ ∧
    ((1:ℚ)/1000 ≠ 1 ∧ kilogramUnit ≠ gramUnit) := by
  refine ⟨?_, by norm_num, by decide⟩
  norm_num [datumC8, gramUnit, kilogramUnit, Datum.rewrite, Datum.convertable,
    PintUnit.isCompatibleWith, Datum.convert, convertMag]

/-! ### Equalizer lemmas -/

/-- Helper: dot product unfolds on cons cells. -/
theorem dotRow_cons (a : Int) (row : List Int) (x : ℚ) (v : List ℚ) :
    dotRow (a :: row) (x :: v) = (a : ℚ) * x + dotRow row v := rfl

/-- Helper: the dict-update fold ignores pairs whose keys differ from the
queried substance. -/
theorem coeffFold_const (s : Substance) :
    ∀ (pairs : List (Substance × ℚ)) (a : ℚ), (∀ p ∈ pairs, p.1 ≠ s) →
      pairs.foldl (fun acc p => if p.1 = s then p.2 else acc) a = a := by
  intro pairs
  induction pairs with
  | nil => intro a _; rfl
  | cons p rest ih =>
    intro a h
    have hp : p.1 ≠ s := h p (List.mem_cons_self p rest)
    simp only [List.foldl_cons, if_neg hp]
    exact ih a (fun q hq => h q (List.mem_cons_of_mem p hq))

/-- Helper: with pairwise distinct keys the dict built by successive
updates maps each key to its paired value. -/
theorem coeffMap_eq_of_mem :
    ∀ (pairs : List (Substance × ℚ)) (a : ℚ) (s : Substance) (x : ℚ),
      (pairs.map Prod.fst).Nodup → (s, x) ∈ pairs →
      pairs.foldl (fun acc p => if p.1 = s then p.2 else acc) a = x := by
  intro pairs
  induction pairs with
  | nil => intro a s x _ hmem; cases hmem
  | cons p rest ih =>
    intro a s x hnd hmem
    simp only [List.map_cons, List.nodup_cons] at hnd
    rcases List.mem_cons.mp hmem with heq | hmem'
    · have h1 : p.1 = s := by rw [← heq]
      have h2 : p.2 = x := by rw [← heq]
      simp only [List.foldl_cons, if_pos h1]
      rw [h2]
      apply coeffFold_const
      intro q hq hqs
      exact hnd.1 (h1 ▸ hqs ▸ List.mem_map.mpr ⟨q, hq, rfl⟩)
    · have hps : p.1 ≠ s := by
        intro hcontra
        exact hnd.1 (hcontra ▸ List.mem_map.mpr ⟨(s, x), hmem', rfl⟩)
      simp only [List.foldl_cons, if_neg hps]
      exact ih _ s x hnd.2 hmem'

/-- Helper: dot product against a mapped row, as a zip sum. -/
theorem dotRow_map_eq (f : Substance → Int) :
    ∀ (l : List Substance) (v : List ℚ),
      dotRow (l.map f) v = ((l.zip v).map (fun p => (f p.1 : ℚ) * p.2)).sum := by
  intro l
  induction l with
  | nil => intro v; rfl
  | cons s rest ih =>
    intro v
    cases v with
    | nil => rfl
    | cons x xs =>
      simp only [List.map_cons, dotRow_cons, List.zip_cons_cons, List.sum_cons]
      rw [ih xs]

/-- Helper: a row of zeros dots to zero. -/
theorem dotRow_zero (f : Substance → Int) (l : List Substance) (v : List ℚ)
    (h : ∀ s ∈ l, f s = 0) : dotRow (l.map f) v = 0 := by
  rw [dotRow_map_eq]
  apply List.sum_eq_zero
  intro q hq
  rcases List.mem_map.mp hq with ⟨p, hp, rfl⟩
  have hmem : p.1 ∈ l := (List.of_mem_zip hp).1
  rw [h p.1 hmem]
  simp

/-- Helper: scaling the vector scales the dot product. -/
theorem dotRow_scaled (c : ℚ) :
    ∀ (row : List Int) (v : List ℚ),
      dotRow row (v.map (fun x => c * x)) = c * dotRow row v := by
  intro row
  induction row with
  | nil => intro v; simp [dotRow]
  | cons a rest ih =>
    intro v
    cases v with
    | nil => simp [dotRow]
    | cons x xs =>
      simp only [List.map_cons, dotRow_cons]
      rw [ih xs]
      ring

/-- Helper: `sideSum` as a sum over the zipped coefficient vector, when the
coefficient function agrees with the vector. -/
theorem sideSum_eq_zipSum (c : Substance → ℚ) (e : String) :
    ∀ (side : List Substance) (w : List ℚ), side.length = w.length →
      (∀ p ∈ side.zip w, c p.1 = p.2) →
      sideSum side c e = ((side.zip w).map (fun p => (p.1.count e : ℚ) * p.2)).sum := by
  intro side
  induction side with
  | nil => intro w _ _; rfl
  | cons s rest ih =>
    intro w hlen hc
    cases w with
    | nil => cases hlen
    | cons x xs =>
      have hlen' : rest.length = xs.length := by simpa using hlen
      have hcs : c s = x := hc (s, x) (by simp [List.zip_cons_cons])
      have htail := ih xs hlen' (fun p hp => by
        apply hc p
        rw [List.zip_cons_cons]
        exact List.mem_cons_of_mem _ hp)
      simp only [sideSum, List.map_cons, List.sum_cons, List.zip_cons_cons]
      simp only [sideSum] at htail
      rw [htail, hcs]
      ring

/-- Helper: sum of pointwise negations. -/
theorem sum_map_neg_eq {α : Type} (l : List α) (f : α → ℚ) :
    (l.map (fun a => -f a)).sum = -((l.map f).sum) := by
  induction l with
  | nil => simp
  | cons a t ih => simp [ih, add_comm]

/-- Claim C1 (amended): whenever the substances of the reaction are
pairwise distinct (no substance repeated within or across the two sides),
any coefficient assignment the Equalizer builds from a nullspace vector of
its stoichiometric matrix conserves mass: for every element, the weighted
atom count over the reagents equals the weighted atom count over the
products. -/
theorem equalizer_mass_conservation
    (elements : List String) (reagents products : List Substance)
    (v : List ℚ) (pairs : List (Substance × ℚ))
    (hnodup : (reagents ++ products).Nodup)
    (hcover : ∀ s ∈ reagents ++ products, ∀ e : String, s.count e ≠ 0 → e ∈ elements)
    (hlen : v.length = (reagents ++ products).length)
    (hker : inNullspace (createMatrix elements reagents products) v)
    (hres : getCoefficients [v] (reagents ++ products) = .ok pairs) :
    ∀ e : String, sideSum reagents (coeffMap pairs) e = sideSum products (coeffMap pairs) e := by
  intro e
  have hpairs : pairs = (reagents ++ products).zip (makeIntegers v) := by
    unfold getCoefficients at hres
    exact (Except.ok.inj hres).symm
  have hwlen : (makeIntegers v).length = v.length := by
    simp [makeIntegers]
  -- The kernel property holds for the scaled vector and for every element.
  have hkerw : ∀ e' : String,
      dotRow ((reagents ++ products).map (matrixEntry products e')) (makeIntegers v) = 0 := by
    intro e'
    by_cases he : e' ∈ elements
    · have hrow : (reagents ++ products).map (matrixEntry products e')
          ∈ createMatrix elements reagents products := by
        unfold createMatrix
        exact List.mem_map.mpr ⟨e', he, rfl⟩
      have h0 := hker _ hrow
      unfold makeIntegers
      rw [dotRow_scaled, h0, mul_zero]
    · apply dotRow_zero
      intro s hs
      unfold matrixEntry
      have hc0 : s.count e' = 0 := by
        by_contra hc
        exact he (hcover s hs e' hc)
      rw [hc0]
      simp
  -- Split the scaled vector along the reagents/products boundary.
  have hlenw : (reagents ++ products).length = (makeIntegers v).length := by
    rw [hwlen, hlen]
  have hlen1 : reagents.length = ((makeIntegers v).take reagents.length).length := by
    rw [List.length_take]
    simp only [List.length_append] at hlenw
    omega
  have hlen2 : products.length = ((makeIntegers v).drop reagents.length).length := by
    rw [List.length_drop]
    simp only [List.length_append] at hlenw
    omega
  have happ : (makeIntegers v).take reagents.length ++ (makeIntegers v).drop reagents.length
      = makeIntegers v := List.take_append_drop _ _
  have hzip : (reagents ++ products).zip (makeIntegers v)
      = reagents.zip ((makeIntegers v).take reagents.length)
        ++ products.zip ((makeIntegers v).drop reagents.length) := by
    conv_lhs => rw [← happ]
    exact List.zip_append hlen1
  have hdisj : ∀ s ∈ reagents, s ∉ products :=
    fun s hs => (List.nodup_append.mp hnodup).2.2 hs
  -- The dict agrees with the zipped values.
  have hkeys : pairs.map Prod.fst = reagents ++ products := by
    rw [hpairs]
    exact List.map_fst_zip _ _ (le_of_eq hlenw)
  have hcoeff : ∀ p ∈ (reagents ++ products).zip (makeIntegers v),
      coeffMap pairs p.1 = p.2 := by
    intro p hp
    have hmem : p ∈ pairs := by rw [hpairs]; exact hp
    have hkeysnd : (pairs.map Prod.fst).Nodup := by rw [hkeys]; exact hnodup
    exact coeffMap_eq_of_mem pairs 0 p.1 p.2 hkeysnd hmem
  -- Express both side sums over the zipped vector.
  have hside1 : sideSum reagents (coeffMap pairs) e
      = ((reagents.zip ((makeIntegers v).take reagents.length)).map
          (fun p => (p.1.count e : ℚ) * p.2)).sum := by
    apply sideSum_eq_zipSum _ _ _ _ hlen1
    intro p hp
    apply hcoeff
    rw [hzip]
    exact List.mem_append_left _ hp
  have hside2 : sideSum products (coeffMap pairs) e
      = ((products.zip ((makeIntegers v).drop reagents.length)).map
          (fun p => (p.1.count e : ℚ) * p.2)).sum := by
    apply sideSum_eq_zipSum _ _ _ _ hlen2
    intro p hp
    apply hcoeff
    rw [hzip]
    exact List.mem_append_right _ hp
  -- Decompose the kernel equation along the same boundary.
  have hsplit := hkerw e
  rw [dotRow_map_eq, hzip, List.map_append, List.sum_append] at hsplit
  have hr : ((reagents.zip ((makeIntegers v).take reagents.length)).map
        (fun p => ((matrixEntry products e p.1 : Int) : ℚ) * p.2)).sum
      = ((reagents.zip ((makeIntegers v).take reagents.length)).map
          (fun p => (p.1.count e : ℚ) * p.2)).sum := by
    congr 1
    apply List.map_congr_left
    intro p hp
    have hmem : p.1 ∈ reagents := (List.of_mem_zip hp).1
    unfold matrixEntry
    rw [if_neg (hdisj _ hmem)]
    push_cast
    ring
  have hq : ((products.zip ((makeIntegers v).drop reagents.length)).map
        (fun p => ((matrixEntry products e p.1 : Int) : ℚ) * p.2)).sum
      = -(((products.zip ((makeIntegers v).drop reagents.length)).map
          (fun p => (p.1.count e : ℚ) * p.2)).sum) := by
    rw [← sum_map_neg_eq]
    congr 1
    apply List.map_congr_left
    intro p hp
    have hmem : p.1 ∈ products := (List.of_mem_zip hp).1
    unfold matrixEntry
    rw [if_pos hmem]
    push_cast
    ring
  rw [hr, hq] at hsplit
  rw [hside1, hside2]
  linarith

/-- Helper: a successful association-list lookup means the key occurs. -/
theorem lookup_some_mem_keys :
    ∀ (l : List (String × Nat)) (e : String) (n : Nat),
      l.lookup e = some n → e ∈ l.map Prod.fst := by
  intro l
  induction l with
  | nil => intro e n h; cases h
  | cons p rest ih =>
    intro e n h
    cases p with
    | mk k b =>
      simp only [List.map_cons, List.mem_cons]
      by_cases hek : e = k
      · exact Or.inl hek
      · right
        have hbeq : (e == k) = false := by simp [hek]
        simp only [List.lookup, hbeq] at h
        exact ih e n h

/-- Helper: a nonzero atom count means the element occurs in the
composition list. -/
theorem count_ne_zero_key_mem (s : Substance) (e : String) (h : s.count e ≠ 0) :
    e ∈ s.comp.map Prod.fst := by
  unfold Substance.count at h
  cases hl : s.comp.lookup e with
  | none => rw [hl] at h; exact absurd rfl h
  | some n => exact lookup_some_mem_keys s.comp e n hl

theorem equalizer_mass_conservation_witness :
    (([subH2, subO2] ++ [subH2O]).Nodup ∧
      (∀ s ∈ [subH2, subO2] ++ [subH2O], ∀ e : String, s.count e ≠ 0 → e ∈ ["H", "O"]) ∧
      vecWater.length = ([subH2, subO2] ++ [subH2O]).length ∧
      inNullspace (createMatrix ["H", "O"] [subH2, subO2] [subH2O]) vecWater ∧
      getCoefficients [vecWater] ([subH2, subO2] ++ [subH2O]) = .ok pairsWater) ∧
    sideSum [subH2, subO2] (coeffMap pairsWater) "H"
      = sideSum [subH2O] (coeffMap pairsWater) "H" := by
  have hnodup : ([subH2, subO2] ++ [subH2O]).Nodup := by decide
  have hcover : ∀ s ∈ [subH2, subO2] ++ [subH2O], ∀ e : String,
      s.count e ≠ 0 → e ∈ ["H", "O"] := by
    intro s hs e hcount
    have hkey := count_ne_zero_key_mem s e hcount
    fin_cases hs <;> simp [subH2, subO2, subH2O] at hkey <;> simp [hkey]
  have hlen : vecWater.length = ([subH2, subO2] ++ [subH2O]).length := rfl
  have hmat : createMatrix ["H", "O"] [subH2, subO2] [subH2O]
      = [[2, 0, -2], [0, 2, -1]] := by decide
  have hker : inNullspace (createMatrix ["H", "O"] [subH2, subO2] [subH2O]) vecWater := by
    intro row hrow
    rw [hmat] at hrow
    fin_cases hrow <;> norm_num [dotRow, vecWater, dotRow_cons]
  have hres : getCoefficients [vecWater] ([subH2, subO2] ++ [subH2O]) = .ok pairsWater := by
    norm_num [getCoefficients, makeIntegers, lcmDen, vecWater, pairsWater]
  exact ⟨⟨hnodup, hcover, hlen, hker, hres⟩,
    equalizer_mass_conservation ["H", "O"] [subH2, subO2] [subH2O] vecWater pairsWater
      hnodup hcover hlen hker hres "H"⟩

/-- Claim C1, counterexample to the claim as stated: for reagents
`[H2, H2]` and products `[O2]` the stoichiometric matrix has a
one-dimensional nullspace (every kernel vector is a multiple of
`vecDup`), so the Equalizer returns a coefficient mapping, yet the
element `H` is not conserved: the reagent side sums to `4`, the product
side to `0`. -/
theorem equalizer_mass_conservation_counterexample :
    ((∀ w : List ℚ, w.length = 3 →
        inNullspace (createMatrix ["H", "O"] [subH2, subH2] [subO2]) w →
        ∃ t : ℚ, w = vecDup.map (fun x => t * x)) ∧
      inNullspace (createMatrix ["H", "O"] [subH2, subH2] [subO2]) vecDup ∧
      getCoefficients [vecDup] ([subH2, subH2] ++ [subO2]) = .ok pairsDup) ∧
    sideSum [subH2, subH2] (coeffMap pairsDup) "H"
      ≠ sideSum [subO2] (coeffMap pairsDup) "H" := by
  have hmat : createMatrix ["H", "O"] [subH2, subH2] [subO2]
      = [[2, 2, 0], [0, 0, -2]] := by decide
  refine ⟨⟨?_, ?_, ?_⟩, ?_⟩
  · intro w hw hker
    rcases w with _ | ⟨a, _ | ⟨b, _ | ⟨c, _ | ⟨d, tl⟩⟩⟩⟩ <;> simp at hw
    have h1 : dotRow [2, 2, 0] [a, b, c] = 0 := by
      apply hker
      rw [hmat]
      simp
    have h2 : dotRow [0, 0, -2] [a, b, c] = 0 := by
      apply hker
      rw [hmat]
      simp
    norm_num [dotRow, dotRow_cons] at h1 h2
    refine ⟨-a, ?_⟩
    simp only [vecDup, List.map_cons, List.map_nil, List.cons.injEq, and_true]
    refine ⟨by ring, by linarith, by linarith⟩
  · intro row hrow
    rw [hmat] at hrow
    fin_cases hrow <;> norm_num [dotRow, vecDup, dotRow_cons]
  · norm_num [getCoefficients, makeIntegers, lcmDen, vecDup, pairsDup]
  · have hc1 : subH2.count "H" = 2 := by decide
    have hc2 : subO2.count "H" = 0 := by decide
    have hm1 : coeffMap pairsDup subH2 = 1 := by
      have hne : subO2 ≠ subH2 := by decide
      simp [coeffMap, pairsDup, hne]
    have hm2 : coeffMap pairsDup subO2 = 0 := by
      have hne1 : subH2 ≠ subO2 := by decide
      have hne2 : subO2 ≠ subH2 := by decide
      simp [coeffMap, pairsDup, hne1, hne2]
    norm_num [sideSum, hc1, hc2, hm1, hm2]

/-- Helper: the accumulator divides the folded lcm. -/
theorem dvd_foldl_lcm :
    ∀ (v : List ℚ) (a : Nat), a ∣ v.foldl (fun acc x => Nat.lcm acc x.den) a := by
  intro v
  induction v with
  | nil => intro a; exact dvd_refl a
  | cons x t ih =>
    intro a
    simp only [List.foldl_cons]
    exact dvd_trans (Nat.dvd_lcm_left a x.den) (ih (Nat.lcm a x.den))

/-- Helper: every entry's denominator divides the folded lcm. -/
theorem den_dvd_foldl_lcm :
    ∀ (v : List ℚ) (a : Nat) (x : ℚ), x ∈ v →
      x.den ∣ v.foldl (fun acc x => Nat.lcm acc x.den) a := by
  intro v
  induction v with
  | nil => intro a x hx; cases hx
  | cons y t ih =>
    intro a x hx
    simp only [List.foldl_cons]
    rcases List.mem_cons.mp hx with rfl | hx'
    · exact dvd_trans (Nat.dvd_lcm_right a x.den) (dvd_foldl_lcm t (Nat.lcm a x.den))
    · exact ih (Nat.lcm a y.den) x hx'

/-- Helper: multiplying a rational by a multiple of its denominator gives
an integer (denominator 1). -/
theorem mul_den_dvd_den_one (n : Nat) (x : ℚ) (h : x.den ∣ n) : ((n : ℚ) * x).den = 1 := by
  obtain ⟨k, hk⟩ := h
  have hden : ((x.den : ℚ)) ≠ 0 := by
    exact_mod_cast x.den_nz
  have hnum : (x.den : ℚ) * x = (x.num : ℚ) := by
    have h := Rat.num_div_den x
    rw [div_eq_iff hden] at h
    rw [mul_comm]
    exact h.symm
  have hcast : (n : ℚ) * x = (((k : Int) * x.num : Int) : ℚ) := by
    rw [hk]
    push_cast
    rw [mul_comm (x.den : ℚ) (k : ℚ), mul_assoc, hnum]
  rw [hcast]
  exact Rat.den_intCast _

/-- Claim C5: `_get_coefficients` raises `CannotEquateReaction` exactly
when the nullspace basis does not consist of a single vector; with a
one-vector basis it returns one coefficient per substance, and every
coefficient is an integer (denominator 1 after scaling by the lcm of the
denominators). -/
theorem getCoefficients_error_iff (solutions : List (List ℚ)) (substances : List Substance)
    (hlen : ∀ sol ∈ solutions, sol.length = substances.length) :
    (solutions.length ≠ 1 →
      getCoefficients solutions substances = .error .cannotEquateReaction) ∧
    (∀ sol, solutions = [sol] →
      ∃ pairs, getCoefficients solutions substances = .ok pairs ∧
        pairs.map Prod.fst = substances ∧
        ∀ p ∈ pairs, p.2.den = 1) := by
  constructor
  · intro hne
    match solutions with
    | [] => rfl
    | [sol] => exact absurd rfl hne
    | a :: b :: t => rfl
  · intro sol hsol
    subst hsol
    refine ⟨substances.zip (makeIntegers sol), rfl, ?_, ?_⟩
    · apply List.map_fst_zip
      have hslen : sol.length = substances.length := hlen sol (List.mem_singleton.mpr rfl)
      simp [makeIntegers, hslen]
    · intro p hp
      have hmem : p.2 ∈ makeIntegers sol := (List.of_mem_zip hp).2
      rcases List.mem_map.mp hmem with ⟨x, hx, hpx⟩
      rw [← hpx]
      exact mul_den_dvd_den_one (lcmDen sol) x (by
        unfold lcmDen
        exact den_dvd_foldl_lcm sol 1 x hx)

theorem getCoefficients_error_iff_witness :
    (∀ sol ∈ [vecWater], sol.length = ([subH2, subO2, subH2O] : List Substance).length) ∧
    (∃ pairs, getCoefficients [vecWater] [subH2, subO2, subH2O] = .ok pairs ∧
      pairs.map Prod.fst = [subH2, subO2, subH2O] ∧ ∀ p ∈ pairs, p.2.den = 1) ∧
    getCoefficients ([] : List (List ℚ)) [subH2, subO2, subH2O]
      = .error .cannotEquateReaction := by
  have hlen : ∀ sol ∈ [vecWater], sol.length = ([subH2, subO2, subH2O] : List Substance).length := by
    intro sol hsol
    rw [List.mem_singleton.mp hsol]
    rfl
  refine ⟨hlen, (getCoefficients_error_iff [vecWater] [subH2, subO2, subH2O] hlen).2 vecWater rfl, ?_⟩
  exact (getCoefficients_error_iff [] [subH2, subO2, subH2O] (by intro sol h; cases h)).1 (by decide)

/-! ### QuantityCalculator theorems -/

/-- Helper: the formula scan returns the solutions of the first formula
passing the numeric test, regardless of what follows it. -/
theorem findNumeric_append {E : Type} (solveFn : E → String → List SymSol) (solveFor : String) :
    ∀ (l1 : List E) (e : E) (l2 : List E),
      (∀ e1 ∈ l1, numericSuccess solveFn solveFor e1 = false) →
      numericSuccess solveFn solveFor e = true →
      findNumeric solveFn solveFor (l1 ++ e :: l2) = some (solveFn e solveFor) := by
  intro l1
  induction l1 with
  | nil =>
    intro e l2 _ hsucc
    simp [findNumeric, hsucc]
  | cons a t ih =>
    intro e l2 hfail hsucc
    have ha : numericSuccess solveFn solveFor a = false := hfail a (List.mem_cons_self _ _)
    simp only [List.cons_append, findNumeric, ha, Bool.false_eq_true, if_false]
    exact ih e l2 (fun e1 he1 => hfail e1 (List.mem_cons_of_mem a he1)) hsucc

/-- Claim C3: `_solve_from_strings` substitutes all known values and
returns the numeric solutions of the first working formula (in bank
order) passing the numeric test — one Datum per solution, named after the
target and carrying the target's declared default unit — without
consulting the formulas after it (the suffix `l2` is arbitrary). -/
theorem qc_solve_first_match {E : Type} (solveFn : E → String → List SymSol)
    (subsFn : E → String → ℚ → E) (defaultUnits : String → PintUnit)
    (st : QCState E) (solveFor : String) (l1 l2 : List E) (e : E)
    (hsplit : pushAll subsFn st.values st.tfl = l1 ++ e :: l2)
    (hfail : ∀ e1 ∈ l1, numericSuccess solveFn solveFor e1 = false)
    (hsucc : numericSuccess solveFn solveFor e = true) :
    (solveFromStrings solveFn subsFn defaultUnits st solveFor).1
      = some ((solveFn e solveFor).map
          (fun s => ⟨solveFor, s.val, defaultUnits solveFor, false, 3⟩)) := by
  simp only [solveFromStrings]
  rw [hsplit, findNumeric_append solveFn solveFor l1 e l2 hfail hsucc]

theorem qc_solve_first_match_witness :
    (pushAll subsFnC3 stateC3.values stateC3.tfl = [1] ++ 2 :: [3] ∧
      (∀ e1 ∈ ([1] : List Nat), numericSuccess solveFnC3 "n" e1 = false) ∧
      numericSuccess solveFnC3 "n" 2 = true) ∧
    (solveFromStrings solveFnC3 subsFnC3 unitsOfC9 stateC3 "n").1
      = some ((solveFnC3 2 "n").map (fun s => ⟨"n", s.val, unitsOfC9 "n", false, 3⟩)) := by
  refine ⟨⟨rfl, by decide, by decide⟩, ?_⟩
  exact qc_solve_first_match solveFnC3 subsFnC3 unitsOfC9 stateC3 "n" [1] [3] 2 rfl
    (by decide) (by decide)

/-- Claim C9 (amended): after `solve`, the working formula list equals the
source bank exactly when some pushed formula passed the numeric test;
when none did, `solve` raises `SolutionNotFound` and the working list
keeps the value-substituted formulas instead of being reset. -/
theorem working_copy_reset_iff {E : Type} (solveFn : E → String → List SymSol)
    (subsFn : E → String → ℚ → E) (defaultUnits : String → PintUnit)
    (pyRound : ℚ → Nat → ℚ) (roundTo : Option Nat) (st : QCState E) (solveFor : String) :
    ((findNumeric solveFn solveFor (pushAll subsFn st.values st.tfl)).isSome →
      (qcSolve solveFn subsFn defaultUnits pyRound roundTo st solveFor).2.tfl
        = st.formulasList) ∧
    (findNumeric solveFn solveFor (pushAll subsFn st.values st.tfl) = none →
      (qcSolve solveFn subsFn defaultUnits pyRound roundTo st solveFor).2.tfl
        = pushAll subsFn st.values st.tfl ∧
      (qcSolve solveFn subsFn defaultUnits pyRound roundTo st solveFor).1
        = .error .solutionNotFound) := by
  constructor
  · intro hsome
    cases hfn : findNumeric solveFn solveFor (pushAll subsFn st.values st.tfl) with
    | none => rw [hfn] at hsome; cases hsome
    | some sols => simp [qcSolve, solveFromStrings, hfn]
  · intro hnone
    constructor <;> simp [qcSolve, solveFromStrings, hnone]

theorem working_copy_reset_iff_witness :
    ((findNumeric solveFnC3 "n" (pushAll subsFnC3 stateC3.values stateC3.tfl)).isSome ∧
      (qcSolve solveFnC3 subsFnC3 unitsOfC9 (fun x _ => x) (some 2) stateC3 "n").2.tfl
        = stateC3.formulasList) ∧
    (findNumeric solveFnC9 "n" (pushAll subsFnC9 stateC9.values stateC9.tfl) = none ∧
      (qcSolve solveFnC9 subsFnC9 unitsOfC9 (fun x _ => x) (some 2) stateC9 "n").2.tfl
        = pushAll subsFnC9 stateC9.values stateC9.tfl ∧
      (qcSolve solveFnC9 subsFnC9 unitsOfC9 (fun x _ => x) (some 2) stateC9 "n").1
        = .error .solutionNotFound) := by
  constructor
  · exact ⟨by decide,
      (working_copy_reset_iff solveFnC3 subsFnC3 unitsOfC9 (fun x _ => x) (some 2)
        stateC3 "n").1 (by decide)⟩
  · exact ⟨by decide,
      (working_copy_reset_iff solveFnC9 subsFnC9 unitsOfC9 (fun x _ => x) (some 2)
        stateC9 "n").2 (by decide)⟩

/-- Claim C9, counterexample to the claim as stated: in the `stateC9`
world no formula yields a numeric solution, `solve` raises
`SolutionNotFound`, and afterwards the working list `[1]` (the
substituted copy) differs from the source bank `[0]`. -/
theorem working_copy_not_reset_counterexample :
    (qcSolve solveFnC9 subsFnC9 unitsOfC9 (fun x _ => x) (some 2) stateC9 "n").2.tfl
      ≠ stateC9.formulasList := by
  decide

/-! ### IterativeCalculator theorems -/

/-- Helper: a variable with a value keeps it after more writes. -/
theorem hasValue_append_left (values more : List Datum) (v : String)
    (h : hasValue values v = true) : hasValue (values ++ more) v = true := by
  unfold hasValue at *
  rw [List.any_append, h]
  rfl

/-- Helper: every datum produced by a round is named after a declared
symbol that had no value. -/
theorem computeAll_mem (calcSolve : List Datum → String → Option (ℚ × PintUnit))
    (symbols : List String) (values : List Datum) :
    ∀ d ∈ computeAllPossibleVars calcSolve symbols values,
      d.varName ∈ symbols ∧ hasValue values d.varName = false := by
  intro d hd
  rcases List.mem_filterMap.mp hd with ⟨v, hv, hsome⟩
  cases hval : hasValue values v with
  | true => rw [hval] at hsome; simp at hsome
  | false =>
    rw [hval] at hsome
    simp only [Bool.false_eq_true, if_false, Option.map_eq_some'] at hsome
    rcases hsome with ⟨r, hr, rfl⟩
    exact ⟨hv, hval⟩

/-- Helper: after writing a round's results, each of their variables has a
value. -/
theorem computeAll_written_known (calcSolve : List Datum → String → Option (ℚ × PintUnit))
    (symbols : List String) (values : List Datum) (d : Datum)
    (hd : d ∈ computeAllPossibleVars calcSolve symbols values) :
    hasValue (values ++ computeAllPossibleVars calcSolve symbols values) d.varName = true := by
  unfold hasValue
  rw [List.any_append]
  have : (computeAllPossibleVars calcSolve symbols values).any
      (fun x => x.varName == d.varName) = true :=
    List.any_eq_true.mpr ⟨d, hd, by simp⟩
  rw [this]
  simp

/-- Helper: a pointwise-weaker filter keeps at most as many elements. -/
theorem filter_length_le_of_imp {α : Type} (p q : α → Bool) :
    ∀ (l : List α), (∀ a ∈ l, p a = true → q a = true) →
      (l.filter p).length ≤ (l.filter q).length := by
  intro l
  induction l with
  | nil => intro _; simp
  | cons a t ih =>
    intro h
    have ht := ih (fun b hb hpb => h b (List.mem_cons_of_mem a hb) hpb)
    cases hpa : p a with
    | true =>
      have hqa := h a (List.mem_cons_self a t) hpa
      simp only [List.filter_cons, hpa, hqa, if_true]
      simpa using ht
    | false =>
      cases hqa : q a with
      | true =>
        simp only [List.filter_cons, hpa, hqa, Bool.false_eq_true, if_false, if_true]
        simp only [List.length_cons]
        omega
      | false =>
        simp only [List.filter_cons, hpa, hqa, Bool.false_eq_true, if_false]
        exact ht

/-- Helper: a pointwise-weaker filter with one witness dropped keeps
strictly fewer elements. -/
theorem filter_length_lt_of_witness {α : Type} (p q : α → Bool) :
    ∀ (l : List α), (∀ a ∈ l, p a = true → q a = true) →
      ∀ a ∈ l, q a = true → p a = false →
      (l.filter p).length < (l.filter q).length := by
  intro l
  induction l with
  | nil => intro _ a ha; cases ha
  | cons b t ih =>
    intro h a ha hqa hpa
    rcases List.mem_cons.mp ha with rfl | hat
    · have hle := filter_length_le_of_imp p q t
        (fun c hc hpc => h c (List.mem_cons_of_mem _ hc) hpc)
      simp only [List.filter_cons, hpa, hqa, Bool.false_eq_true, if_false, if_true]
      simp only [List.length_cons]
      omega
    · have hlt := ih (fun c hc hpc => h c (List.mem_cons_of_mem _ hc) hpc) a hat hqa hpa
      cases hpb : p b with
      | true =>
        have hqb := h b (List.mem_cons_self _ _) hpb
        simp only [List.filter_cons, hpb, hqb, if_true, List.length_cons]
        omega
      | false =>
        cases hqb : q b with
        | true =>
          simp only [List.filter_cons, hpb, hqb, Bool.false_eq_true, if_false, if_true,
            List.length_cons]
          omega
        | false =>
          simp only [List.filter_cons, hpb, hqb, Bool.false_eq_true, if_false]
          exact hlt

/-- Helper: a round that produced at least one datum strictly shrinks the
set of unknown declared variables. -/
theorem unknownCount_lt (calcSolve : List Datum → String → Option (ℚ × PintUnit))
    (symbols : List String) (values : List Datum)
    (hne : computeAllPossibleVars calcSolve symbols values ≠ []) :
    unknownCount symbols (values ++ computeAllPossibleVars calcSolve symbols values)
      < unknownCount symbols values := by
  unfold unknownCount
  obtain ⟨d, hd⟩ : ∃ d, d ∈ computeAllPossibleVars calcSolve symbols values := by
    cases hcs : computeAllPossibleVars calcSolve symbols values with
    | nil => exact absurd hcs hne
    | cons d t => exact ⟨d, hcs ▸ List.mem_cons_self d t⟩
  apply filter_length_lt_of_witness _ _ symbols ?mono d.varName (computeAll_mem _ _ _ d hd).1 ?q ?p
  case mono =>
    intro v _ hp
    cases hval : hasValue values v with
    | false => rfl
    | true =>
      rw [hasValue_append_left values _ v hval] at hp
      cases hp
  case q =>
    rw [(computeAll_mem _ _ _ d hd).2]
    rfl
  case p =>
    rw [computeAll_written_known calcSolve symbols values d hd]
    rfl

/-- Helper: enough fuel reaches the fixpoint. -/
theorem iterate_completes (calcSolve : List Datum → String → Option (ℚ × PintUnit))
    (symbols : List String) :
    ∀ (fuel : Nat) (values : List Datum), unknownCount symbols values < fuel →
      (iterate calcSolve symbols fuel values).2 = true := by
  intro fuel
  induction fuel with
  | zero => intro values h; exact absurd h (Nat.not_lt_zero _)
  | succ n ih =>
    intro values h
    cases hie : (computeAllPossibleVars calcSolve symbols values).isEmpty with
    | true => simp [iterate, hie]
    | false =>
      have hne : computeAllPossibleVars calcSolve symbols values ≠ [] := by
        intro hc
        rw [hc] at hie
        cases hie
      have hdec := unknownCount_lt calcSolve symbols values hne
      have hlt : unknownCount symbols
          (values ++ computeAllPossibleVars calcSolve symbols values) < n := by omega
      simp only [iterate, hie, Bool.false_eq_true, if_false]
      exact ih _ hlt

/-- Claim C2: the fixpoint iteration behind `IterativeCalculator.solve`
always terminates: it reaches the final (empty) round after at most
`|declared variables|` variable-writing rounds, because every non-final
round writes at least one newly known variable and the unknown set starts
no larger than the set of declared variables.  Concretely, a fuel of
`|symbols| + 1` rounds always suffices to complete. -/
theorem iterate_fixpoint_termination
    (calcSolve : List Datum → String → Option (ℚ × PintUnit))
    (symbols : List String) (values : List Datum) :
    (iterate calcSolve symbols (symbols.length + 1) values).2 = true := by
  apply iterate_completes
  have hle : unknownCount symbols values ≤ symbols.length := by
    unfold unknownCount
    exact List.length_filter_le _ _
  omega

/-- Claim C10: `IterativeCalculator.solve` cannot return when the stored
target's magnitude is exactly zero: even when the target variable has
been derived (the fixpoint left a value for it), the rounding step
evaluates `self.target.num_decimals`, and `Datum._get_decimals` raises
`ValueError` on a zero magnitude; consequently any successful `solve`
implies the stored target's magnitude was non-zero. -/
theorem icSolve_requires_nonzero_target
    (calcSolve : List Datum → String → Option (ℚ × PintUnit))
    (symbols : List String) (decimalsOf : ℚ → Nat) (pyRound : ℚ → Nat → ℚ)
    (fuel : Nat) (target : Datum) (values : List Datum) :
    (target.magnitude = 0 →
      ((iterate calcSolve symbols fuel values).1.find?
          (fun d => d.varName == target.varName)).isSome →
      icSolve calcSolve symbols decimalsOf pyRound fuel target values
        = .error .valueError) ∧
    (∀ d, icSolve calcSolve symbols decimalsOf pyRound fuel target values = .ok d →
      target.magnitude ≠ 0) := by
  constructor
  · intro hzero hfound
    simp only [icSolve]
    cases hf : (iterate calcSolve symbols fuel values).1.find?
        (fun d => d.varName == target.varName) with
    | none => rw [hf] at hfound; cases hfound
    | some d0 =>
      simp only [getDecimals, hzero, if_pos]
  · intro d hok hzero
    simp only [icSolve] at hok
    cases hf : (iterate calcSolve symbols fuel values).1.find?
        (fun d => d.varName == target.varName) with
    | none => rw [hf] at hok; cases hok
    | some d0 =>
      rw [hf] at hok
      rw [getDecimals, if_pos hzero] at hok
      cases hok

theorem icSolve_requires_nonzero_target_witness :
    targetC10.magnitude = 0 ∧
    ((iterate calcSolveC10 ["n"] 2 []).1.find?
        (fun d => d.varName == targetC10.varName)).isSome ∧
    icSolve calcSolveC10 ["n"] (fun _ => 1) (fun x _ => x) 2 targetC10 []
      = .error .valueError := by
  refine ⟨rfl, by decide, ?_⟩
  exact (icSolve_requires_nonzero_target calcSolveC10 ["n"] (fun _ => 1) (fun x _ => x)
    2 targetC10 []).1 rfl (by decide)

/-- Claim C4, evaluation at the failing input: with the bundle bank
`[NTP, STP]`, the call `assume('STP')` applies the NTP bundle — the code
indexes `read_assumptions` by the position of the requested name in the
argument tuple (index 0), not by the position of the matching bundle
(index 1), so the applied bundle's symbol differs from the requested
name. -/
theorem assume_applies_wrong_bundle :
    assumeSelect [bundleNTP, bundleSTP] ["STP"] = .ok [bundleNTP] ∧
    bundleNTP.symbol ≠ "STP" := by
  constructor
  · rfl
  · decide
